import Mathlib

/-!
Shallow embedding of `fermipy/jobs/file_archive.py`.

Python strings are modelled as `List Char`; `str.replace(pat, '')` is
modelled by `pyReplace`, `str.split()` by `pySplit`, `os.path.join` by
`osPathJoin`.  Python `dict` / `OrderedDict` values are modelled as
association lists with in-place update (`odSet`) and lookup (`odLookup`).
The filesystem is a map from full path to the modification time of the
file, when the file exists (`os.path.exists` / `os.stat().st_mtime`).
Raised Python exceptions are modelled with `Except`; the error value also
carries the archive state at the moment the exception escapes, so that
side effects performed before the raise are preserved.
-/

set_option maxRecDepth 4000

abbrev PyStr := List Char

/-- Fuel-driven core of `pyReplace`; fuel at least the length of the string
makes it total and keeps it structurally recursive (kernel reducible). -/
def pyReplaceFuel (pat repl : PyStr) : Nat → PyStr → PyStr
  | _, [] => []
  | 0, _ :: _ => []
  | fuel + 1, c :: rest =>
    if pat.isPrefixOf (c :: rest) = true ∧ pat ≠ [] then
      repl ++ pyReplaceFuel pat repl fuel (rest.drop (pat.length - 1))
    else
      c :: pyReplaceFuel pat repl fuel rest

/-- Python `s.replace(pat, repl)`: replace every non-overlapping occurrence
of `pat` in `s`, scanning left to right.  (For `pat = ""` Python interleaves
`repl` everywhere; the source only ever calls replace with `repl = ''`, for
which this definition agrees with Python also at `pat = ""`.) -/
def pyReplace (pat repl s : PyStr) : PyStr :=
  pyReplaceFuel pat repl s.length s

/-- Does `pat` occur (as a contiguous substring) in `s`? Matches the
occurrence notion scanned by `pyReplace`. -/
def containsOcc (pat : PyStr) : PyStr → Bool
  | [] => pat.isPrefixOf []
  | c :: rest => pat.isPrefixOf (c :: rest) || containsOcc pat rest

/-- Python `s.split()` helper: accumulate the current token reversed. -/
def pySplitAux : PyStr → PyStr → List PyStr
  | [], cur => if cur.isEmpty then [] else [cur.reverse]
  | c :: rest, cur =>
    if c.isWhitespace then
      if cur.isEmpty then pySplitAux rest [] else cur.reverse :: pySplitAux rest []
    else
      pySplitAux rest (c :: cur)

/-- Python `s.split()`: split on runs of whitespace, dropping empty tokens. -/
def pySplit (s : PyStr) : List PyStr := pySplitAux s []

/-- POSIX `os.path.join` for two components. -/
def osPathJoin (a b : PyStr) : PyStr :=
  if b.head? = some '/' then b
  else if a = [] ∨ a.getLast? = some '/' then a ++ b
  else a ++ '/' :: b

/-- Python dict lookup on an association list. -/
def odLookup {α : Type} : List (PyStr × α) → PyStr → Option α
  | [], _ => none
  | (k0, v0) :: rest, k => if k0 = k then some v0 else odLookup rest k

/-- Python dict assignment `d[k] = v`: replace in place when the key is
present, append otherwise (dict / `OrderedDict` iteration order). -/
def odSet {α : Type} : List (PyStr × α) → PyStr → α → List (PyStr × α)
  | [], k, v => [(k, v)]
  | (k0, v0) :: rest, k, v =>
    if k0 = k then (k, v) :: rest else (k0, v0) :: odSet rest k v

/-- Python list indexing `l[i]` with negative-index wrapping. -/
def pyIndex {α : Type} (l : List α) (i : Int) : Option α :=
  if 0 ≤ i then l.get? i.toNat
  else if -i ≤ (l.length : Int) then l.get? (l.length - (-i).toNat) else none

namespace FileStatus

/-- File is not in system. -/
def no_file : Nat := 0

/-- File will be created by a scheduled job. -/
def expected : Nat := 1

/-- File exists. -/
def «exists» : Nat := 2

/-- File should exist, but does not. -/
def missing : Nat := 3

/-- File exists, but has been superseded. -/
def superseded : Nat := 4

/-- File was temporary and has been removed. -/
def temp_removed : Nat := 5

end FileStatus

namespace FileFlags

def no_flags : Nat := 0

def input_mask : Nat := 1

def output_mask : Nat := 2

def rm_mask : Nat := 4

def gz_mask : Nat := 8

def internal_mask : Nat := 16

def in_ch_mask : Nat := input_mask ||| output_mask ||| rm_mask ||| internal_mask

def out_ch_mask : Nat := output_mask ||| rm_mask ||| internal_mask

end FileFlags

/-- The `.gz` compression suffix stripped by `FileDict.latch_file_info`
(the Python expression `file_path.replace('.gz','')`). -/
def gzSuffix : PyStr := ['.', 'g', 'z']

/-- `FileDict`: maps argument names to flags (`file_args`) and file paths to
flags (`file_dict`). -/
structure FileDict where
  file_args : List (PyStr × Nat)
  file_dict : List (PyStr × Nat)
deriving DecidableEq

/-- One iteration of the loop body of `latch_file_info`: record the flag
`val` for the path(s) carried by argument `key` with value `file_path`. -/
def latchOne (d : List (PyStr × Nat)) (key : PyStr) (val : Nat) (file_path : PyStr) :
    List (PyStr × Nat) :=
  if key.take 4 = "args".toList then
    (pySplit file_path).foldl (fun acc token => odSet acc (pyReplace gzSuffix [] token) val) d
  else
    odSet d (pyReplace gzSuffix [] file_path) val

/-- `FileDict.latch_file_info(args)`: clear `file_dict`, then for every
schema entry whose argument is present and not `None`, record its flag
under the path with the compression suffix `.gz` stripped.  An absent
argument raises `KeyError` inside the loop body, which is caught and
skipped. -/
def FileDict.latch_file_info (self : FileDict) (args : List (PyStr × Option PyStr)) : FileDict :=
  { self with
    file_dict :=
      self.file_args.foldl
        (fun d kv =>
          match odLookup args kv.1 with
          | none => d
          | some none => d
          | some (some file_path) => latchOne d kv.1 kv.2 file_path)
        [] }

/-- One Python loop iteration of `FileDict.update`: `d[k] |= v` when `k` is
present, `d[k] = v` otherwise. -/
def fdMergeStep (d : List (PyStr × Nat)) (kv : PyStr × Nat) : List (PyStr × Nat) :=
  match odLookup d kv.1 with
  | some old => odSet d kv.1 (old ||| kv.2)
  | none => d ++ [(kv.1, kv.2)]

/-- The map-level content of `FileDict.update`. -/
def fdMerge (d other : List (PyStr × Nat)) : List (PyStr × Nat) :=
  other.foldl fdMergeStep d

/-- `FileDict.update(file_dict)`: OR the flags of every entry of the given
path-to-flags map into this classifier, creating absent entries. -/
def FileDict.update (self : FileDict) (file_dict : List (PyStr × Nat)) : FileDict :=
  { self with file_dict := fdMerge self.file_dict file_dict }

/-- `FileHandle`: one file record.  The Python constructor defaults are
`key=-1, creator=-1, timestamp=0, status=no_file, flags=no_flags`; every
construction site below passes all fields explicitly. -/
structure FileHandle where
  key : Int
  creator : Int
  timestamp : Int
  status : Nat
  flags : Nat
  path : PyStr
deriving DecidableEq

/-- The Python exception classes raised by the archive code. -/
inductive PyErr where
  | keyError
  | valueError
  | attributeError
  | indexError
deriving DecidableEq

/-- Filesystem model: full path to modification time of an existing file;
`none` when `os.path.exists` is false. -/
def FileSystem : Type := PyStr → Option Int

/-- `FileArchive`: base path, persisted table (list of rows, in order) and
in-memory cache (`OrderedDict` from local path to record). -/
structure FileArchive where
  base_path : PyStr
  table : List FileHandle
  cache : List (PyStr × FileHandle)
deriving DecidableEq

/-- `FileArchive._get_fullpath`: paths starting with `/` are returned
unchanged, otherwise the base path is prefixed with `os.path.join`.
(Python indexes `filepath[0]` and would raise `IndexError` on the empty
string; theorems about this function assume a nonempty argument.) -/
def FileArchive.get_fullpath (a : FileArchive) (filepath : PyStr) : PyStr :=
  match filepath with
  | [] => osPathJoin a.base_path []
  | c :: rest => if c = '/' then c :: rest else osPathJoin a.base_path (c :: rest)

/-- `FileArchive._get_localpath`: `filepath.replace(self._base_path, '')`. -/
def FileArchive.get_localpath (a : FileArchive) (filepath : PyStr) : PyStr :=
  pyReplace a.base_path [] filepath

/-- `FileArchive.get_handle`: cache lookup by local path; raises `KeyError`
when the path is untracked. -/
def FileArchive.get_handle (a : FileArchive) (filepath : PyStr) : Except PyErr FileHandle :=
  match odLookup a.cache (a.get_localpath filepath) with
  | some fh => .ok fh
  | none => .error .keyError

/-- The `(status, timestamp)` pair computed by `register_file`: a request
for status `exists` is checked against the filesystem and downgraded to
`missing` with timestamp `0` (with a printed warning) when the file is
absent; when present the timestamp is the modification time.  Any other
requested status keeps its value with timestamp `0`. -/
def registerStatusTimestamp (fs : FileSystem) (a : FileArchive) (filepath : PyStr)
    (status : Nat) : Nat × Int :=
  if status = FileStatus.«exists» then
    match fs (a.get_fullpath filepath) with
    | none => (FileStatus.missing, 0)
    | some mtime => (FileStatus.«exists», mtime)
  else
    (status, 0)

/-- `FileArchive.register_file`.  The duplicate check in the source raises
`KeyError` inside its own `try` block whose handler catches `KeyError` and
passes, so the check has no effect: registration always proceeds.  The new
record gets `key = len(table) + 1` and is appended to the table and stored
in the cache under its local path. -/
def FileArchive.register_file (fs : FileSystem) (a : FileArchive) (filepath : PyStr)
    (creator : Int) (status : Nat) (flags : Nat) : FileArchive × FileHandle :=
  let st := registerStatusTimestamp fs a filepath status
  let localpath := a.get_localpath filepath
  let fh : FileHandle :=
    { key := (a.table.length : Int) + 1, creator := creator, timestamp := st.2,
      status := st.1, flags := flags, path := localpath }
  ({ a with table := a.table ++ [fh], cache := odSet a.cache localpath fh }, fh)

/-- The in-place mutation performed by `update_file` on the cached record:
creator, timestamp and status are overwritten; key and path are untouched. -/
def updatedHandle (fh : FileHandle) (creator : Int) (status : Nat) : FileHandle :=
  { fh with creator := creator, timestamp := 0, status := status }

/-- The archive after the cached record under `lp` has been mutated; the
table is untouched because `_update_table_row` only rebinds its local
parameter. -/
def updatedArchive (a : FileArchive) (lp : PyStr) (fh2 : FileHandle) : FileArchive :=
  { a with cache := odSet a.cache lp fh2 }

/-- `FileArchive.update_file`.  Raises `KeyError` when the path is
untracked.  When the requested status is `exists` or `superseded`, the
source evaluates `file_handle.fullpath`; `FileHandle` defines no attribute
`fullpath`, so this raises `AttributeError` before anything is mutated.
Otherwise the cached record is mutated in place (creator, timestamp `0`,
status) and `_update_table_row` is called on `self._table[key - 1]`;
`_update_table_row` only rebinds its local parameter, so the table row is
not modified (the indexing itself can raise `IndexError`, after the cache
mutation has already happened). -/
def FileArchive.update_file (_fs : FileSystem) (a : FileArchive) (filepath : PyStr)
    (creator : Int) (status : Nat) :
    Except (PyErr × FileArchive) (FileArchive × FileHandle) :=
  match odLookup a.cache (a.get_localpath filepath) with
  | none => .error (.keyError, a)
  | some fh =>
    if status = FileStatus.«exists» ∨ status = FileStatus.superseded then
      .error (.attributeError, a)
    else
      match pyIndex a.table (fh.key - 1) with
      | none =>
        .error (.indexError,
          updatedArchive a (a.get_localpath filepath) (updatedHandle fh creator status))
      | some _ =>
        .ok (updatedArchive a (a.get_localpath filepath) (updatedHandle fh creator status),
          updatedHandle fh creator status)

/-- Loop of `FileArchive.get_file_ids` over the file list.  The `creator`
argument is a Python local that is rebound to `-1` the first time a file is
registered with no creator given, and keeps that value for the remaining
iterations.  When a classifier is supplied, `file_dict.file_dict[fname]`
raises an uncaught `KeyError` for a path absent from the flags map. -/
def getFileIdsLoop (fs : FileSystem) :
    List PyStr → FileArchive → Option Int → Nat → Option FileDict → List Int →
    Except (PyErr × FileArchive) (FileArchive × List Int)
  | [], a, _, _, _, acc => .ok (a, acc)
  | fname :: rest, a, creator, status, file_dict, acc =>
    match file_dict with
    | some fd =>
      match odLookup fd.file_dict fname with
      | none => .error (.keyError, a)
      | some flags =>
        match a.get_handle fname with
        | .ok fh => getFileIdsLoop fs rest a creator status file_dict (acc ++ [fh.key])
        | .error _ =>
          let creator2 := creator.getD (-1)
          let res := a.register_file fs fname creator2 status flags
          getFileIdsLoop fs rest res.1 (some creator2) status file_dict (acc ++ [res.2.key])
    | none =>
      match a.get_handle fname with
      | .ok fh => getFileIdsLoop fs rest a creator status file_dict (acc ++ [fh.key])
      | .error _ =>
        let creator2 := creator.getD (-1)
        let res := a.register_file fs fname creator2 status FileFlags.no_flags
        getFileIdsLoop fs rest res.1 (some creator2) status file_dict (acc ++ [res.2.key])

/-- `FileArchive.get_file_ids`: resolve every path of the list to the key of
its record, registering the path when it is untracked. -/
def FileArchive.get_file_ids (fs : FileSystem) (a : FileArchive) (file_list : List PyStr)
    (creator : Option Int) (status : Nat) (file_dict : Option FileDict) :
    Except (PyErr × FileArchive) (FileArchive × List Int) :=
  getFileIdsLoop fs file_list a creator status file_dict []

/-- Archive states reachable from a freshly built archive (empty table, as
produced by `_read_table_file` when the table file does not exist) by any
sequence of `register_file`, `update_file` and `get_file_ids` calls,
including the states left behind by calls that raise. -/
inductive Reachable : FileArchive → Prop where
  | base (bp : PyStr) : Reachable ⟨bp, [], []⟩
  | register {a : FileArchive} (fs : FileSystem) (p : PyStr) (creator : Int)
      (status flags : Nat) (h : Reachable a) :
      Reachable (a.register_file fs p creator status flags).1
  | update_ok {a : FileArchive} (fs : FileSystem) (p : PyStr) (creator : Int) (status : Nat)
      (a2 : FileArchive) (fh : FileHandle) (h : Reachable a)
      (hu : a.update_file fs p creator status = .ok (a2, fh)) : Reachable a2
  | update_err {a : FileArchive} (fs : FileSystem) (p : PyStr) (creator : Int) (status : Nat)
      (e : PyErr) (a2 : FileArchive) (h : Reachable a)
      (hu : a.update_file fs p creator status = .error (e, a2)) : Reachable a2
  | ids_ok {a : FileArchive} (fs : FileSystem) (ps : List PyStr) (creator : Option Int)
      (status : Nat) (fd : Option FileDict) (a2 : FileArchive) (ks : List Int)
      (h : Reachable a)
      (hu : a.get_file_ids fs ps creator status fd = .ok (a2, ks)) : Reachable a2
  | ids_err {a : FileArchive} (fs : FileSystem) (ps : List PyStr) (creator : Option Int)
      (status : Nat) (fd : Option FileDict) (e : PyErr) (a2 : FileArchive)
      (h : Reachable a)
      (hu : a.get_file_ids fs ps creator status fd = .error (e, a2)) : Reachable a2

deriving instance DecidableEq for Except

/-! ## Concrete scenario used by several claims -/

/-- Filesystem with no files at all. -/
def fsEmpty : FileSystem := fun _ => none

/-- Filesystem in which exactly `/data/a.fits` exists, modified at time 111. -/
def fsDataA : FileSystem := fun p => if p = "/data/a.fits".toList then some 111 else none

/-- Fresh archive with base path `/data/`. -/
def arch0 : FileArchive := ⟨"/data/".toList, [], []⟩

/-- The archive after registering `a.fits` (creator 7, status `no_file`). -/
def arch1 : FileArchive :=
  (arch0.register_file fsEmpty "a.fits".toList 7 FileStatus.no_file FileFlags.no_flags).1

/-- C1: the claim states that `register_file` on an already-tracked path fails
with a Duplicate error, never mutates the existing record and leaves the
record set unchanged.  In the source the deliberate `raise KeyError` sits
inside the `try` block whose handler catches `KeyError` and passes, so the
second registration of `a.fits` succeeds: it appends a second row for the
same path (duplicate record set, key 2) and overwrites the cache entry. -/
theorem C1_duplicate_registration_succeeds :
    (arch1.register_file fsEmpty "a.fits".toList 7 FileStatus.no_file
        FileFlags.no_flags).1.table.map FileHandle.path
      = ["a.fits".toList, "a.fits".toList] ∧
    (arch1.register_file fsEmpty "a.fits".toList 7 FileStatus.no_file
        FileFlags.no_flags).2.key = 2 ∧
    (arch1.register_file fsEmpty "a.fits".toList 7 FileStatus.no_file
        FileFlags.no_flags).1.table.length = 2 := by
  decide

/-- C2: the claim states that `update_file` with status `exists` or
`superseded` on a path whose backing file is absent fails with an
Inconsistent (`ValueError`) error.  The source first evaluates
`file_handle.fullpath`, an attribute `FileHandle` never defines, so every
such update raises `AttributeError` instead — also when the file does exist
on disk (`fsDataA`), where the claim expects success.  The state carried by
the error is the unchanged archive. -/
theorem C2_update_file_attribute_error :
    arch1.update_file fsEmpty "a.fits".toList 7 FileStatus.«exists»
        = .error (.attributeError, arch1) ∧
    arch1.update_file fsDataA "a.fits".toList 7 FileStatus.«exists»
        = .error (.attributeError, arch1) ∧
    arch1.update_file fsDataA "a.fits".toList 7 FileStatus.superseded
        = .error (.attributeError, arch1) := by
  decide

/-- C3: the claim states cache and persisted table always hold the same
records.  `FileHandle._update_table_row` only rebinds its local parameter,
so after an `update_file` (creator 7 changed to 9, status `expected`) the
cached record has creator 9 while the table row still has creator 7: the
two representations diverge. -/
theorem C3_update_table_row_not_updated :
    (arch1.update_file fsEmpty "a.fits".toList 9 FileStatus.expected).map
        (fun r => ((odLookup r.1.cache "a.fits".toList).map FileHandle.creator,
                   r.1.table.map FileHandle.creator))
      = .ok (some 9, [7]) := by
  decide

/-- Archive with base path `/data` (no trailing slash), as in the spec
scenario. -/
def arch5 : FileArchive := ⟨"/data".toList, [], []⟩

/-- C5 counterexample: `/data/run1/evt.fits` lies under base path `/data`,
but `replace` leaves the leading slash, so `_get_localpath` yields the
absolute path `/run1/evt.fits`, which `_get_fullpath` returns unchanged:
the round trip gives `/run1/evt.fits`, not the original path. -/
theorem C5_roundtrip_counterexample :
    "/data/run1/evt.fits".toList = arch5.base_path ++ "/run1/evt.fits".toList ∧
    arch5.get_fullpath (arch5.get_localpath "/data/run1/evt.fits".toList)
      ≠ "/data/run1/evt.fits".toList := by
  decide

/-- Classifier schema with a single `infile` argument, used by C7. -/
def fd7 : FileDict := ⟨[("infile".toList, FileFlags.input_mask)], []⟩

/-- C7 counterexample: `a.gzb` does not end in `.gz`, yet
`latch_file_info` records it as `ab`: `replace('.gz','')` strips every
occurrence of `.gz`, not only a trailing suffix. -/
theorem C7_gz_strip_counterexample :
    gzSuffix.isSuffixOf "a.gzb".toList = false ∧
    (fd7.latch_file_info [("infile".toList, some "a.gzb".toList)]).file_dict
      = [("ab".toList, FileFlags.input_mask)] := by
  decide

/-! ## Lemmas about `pyReplace` -/

theorem pyReplaceFuel_nil (pat repl : PyStr) (fuel : Nat) :
    pyReplaceFuel pat repl fuel [] = [] := by
  cases fuel <;> rfl

theorem pyReplaceFuel_congr (pat repl : PyStr) :
    ∀ (f1 f2 : Nat) (s : PyStr), s.length ≤ f1 → s.length ≤ f2 →
      pyReplaceFuel pat repl f1 s = pyReplaceFuel pat repl f2 s := by
  intro f1
  induction f1 with
  | zero =>
    intro f2 s hs1 _
    have h0 : s = [] := List.eq_nil_of_length_eq_zero (Nat.le_zero.mp hs1)
    subst h0
    simp [pyReplaceFuel_nil]
  | succ f ih =>
    intro f2 s hs1 hs2
    cases s with
    | nil => simp [pyReplaceFuel_nil]
    | cons c rest =>
      cases f2 with
      | zero => simp at hs2
      | succ g =>
        have hr1 : rest.length ≤ f := by simp at hs1; omega
        have hr2 : rest.length ≤ g := by simp at hs2; omega
        have hd1 : (rest.drop (pat.length - 1)).length ≤ f := by
          simp only [List.length_drop]; omega
        have hd2 : (rest.drop (pat.length - 1)).length ≤ g := by
          simp only [List.length_drop]; omega
        simp only [pyReplaceFuel]
        by_cases h : pat.isPrefixOf (c :: rest) = true ∧ pat ≠ []
        · rw [if_pos h, if_pos h, ih _ _ hd1 hd2]
        · rw [if_neg h, if_neg h, ih _ _ hr1 hr2]

theorem pyReplace_nil (pat repl : PyStr) : pyReplace pat repl [] = [] := rfl

theorem pyReplace_cons_pos (pat repl : PyStr) (c : Char) (rest : PyStr)
    (h : pat.isPrefixOf (c :: rest) = true) (hne : pat ≠ []) :
    pyReplace pat repl (c :: rest) =
      repl ++ pyReplace pat repl (rest.drop (pat.length - 1)) := by
  show pyReplaceFuel pat repl (c :: rest).length (c :: rest) = _
  simp only [List.length_cons, pyReplaceFuel, if_pos (And.intro h hne)]
  congr 1
  exact pyReplaceFuel_congr pat repl rest.length _ _
    (by simp only [List.length_drop]; omega) (le_refl _)

theorem pyReplace_cons_neg (pat repl : PyStr) (c : Char) (rest : PyStr)
    (h : ¬ pat.isPrefixOf (c :: rest) = true) :
    pyReplace pat repl (c :: rest) = c :: pyReplace pat repl rest := by
  have h2 : ¬ (pat.isPrefixOf (c :: rest) = true ∧ pat ≠ []) := fun hc => h hc.1
  show pyReplaceFuel pat repl (c :: rest).length (c :: rest) = _
  simp only [List.length_cons, pyReplaceFuel]
  rw [if_neg h2]
  rfl

theorem bool_ne_true_of_eq_false {b : Bool} (h : b = false) : ¬ b = true := by
  intro hc
  rw [h] at hc
  exact Bool.false_ne_true hc

theorem bool_eq_false_of_ne_true {b : Bool} (h : ¬ b = true) : b = false := by
  cases b
  · rfl
  · exact absurd rfl h

theorem isPrefixOf_append_self (l s : PyStr) : l.isPrefixOf (l ++ s) = true := by
  rw [List.isPrefixOf_iff_prefix]
  exact List.prefix_append l s

theorem pyReplace_prefix_step (pat repl s : PyStr) (hne : pat ≠ []) :
    pyReplace pat repl (pat ++ s) = repl ++ pyReplace pat repl s := by
  match pat, hne with
  | p0 :: pt, _ =>
    have h1 : (p0 :: pt).isPrefixOf (p0 :: (pt ++ s)) = true := by
      have h2 := isPrefixOf_append_self (p0 :: pt) s
      rw [show (p0 :: pt) ++ s = p0 :: (pt ++ s) from rfl] at h2
      exact h2
    rw [show (p0 :: pt) ++ s = p0 :: (pt ++ s) from rfl]
    rw [pyReplace_cons_pos _ _ _ _ h1 (by simp)]
    have h3 : (pt ++ s).drop ((p0 :: pt).length - 1) = s := by
      show (pt ++ s).drop (pt.length + 1 - 1) = s
      rw [Nat.add_sub_cancel]
      exact List.drop_left pt s
    rw [h3]

theorem pyReplace_of_not_containsOcc (pat repl : PyStr) :
    ∀ s : PyStr, containsOcc pat s = false → pyReplace pat repl s = s := by
  intro s
  induction s with
  | nil => intro _; rfl
  | cons c rest ih =>
    intro h
    simp only [containsOcc, Bool.or_eq_false_iff] at h
    rw [pyReplace_cons_neg _ _ _ _ (bool_ne_true_of_eq_false h.1), ih h.2]

/-! ## The shift lemma for the `.gz` suffix -/

theorem gz_isPrefixOf_cons3 (c d e : Char) (t : PyStr) :
    gzSuffix.isPrefixOf (c :: d :: e :: t)
      = (('.' == c) && (('g' == d) && ('z' == e))) := by
  simp [gzSuffix, List.isPrefixOf_cons₂, List.isPrefixOf_nil_left]

theorem gz_not_prefix_one (c : Char) : gzSuffix.isPrefixOf [c] = false := by
  simp [gzSuffix, List.isPrefixOf_cons₂]

theorem gz_not_prefix_two (c d : Char) : gzSuffix.isPrefixOf [c, d] = false := by
  simp [gzSuffix, List.isPrefixOf_cons₂]

theorem pyReplace_gz_aux :
    ∀ (n : Nat) (p : PyStr), p.length ≤ n →
      pyReplace gzSuffix [] (p ++ gzSuffix) = pyReplace gzSuffix [] p := by
  intro n
  induction n with
  | zero =>
    intro p hp
    have hp0 : p = [] := List.eq_nil_of_length_eq_zero (Nat.le_zero.mp hp)
    subst hp0
    decide
  | succ n ih =>
    intro p hp
    rcases p with _ | ⟨c, p1⟩
    · decide
    rcases p1 with _ | ⟨d, p2⟩
    · -- p = [c]
      have hno : gzSuffix.isPrefixOf (c :: gzSuffix) = false := by
        rw [show c :: gzSuffix = c :: '.' :: 'g' :: ['z'] from rfl, gz_isPrefixOf_cons3]
        rw [show (('g' : Char) == '.') = false from by decide]
        simp
      show pyReplace gzSuffix [] (c :: gzSuffix) = pyReplace gzSuffix [] (c :: [])
      rw [pyReplace_cons_neg gzSuffix [] c gzSuffix (bool_ne_true_of_eq_false hno)]
      rw [pyReplace_cons_neg gzSuffix [] c []
        (bool_ne_true_of_eq_false (gz_not_prefix_one c))]
      congr 1
    rcases p2 with _ | ⟨e, p3⟩
    · -- p = [c, d]
      have hno : gzSuffix.isPrefixOf (c :: d :: gzSuffix) = false := by
        rw [show c :: d :: gzSuffix = c :: d :: '.' :: ['g', 'z'] from rfl, gz_isPrefixOf_cons3]
        rw [show (('z' : Char) == '.') = false from by decide]
        simp
      show pyReplace gzSuffix [] (c :: (d :: gzSuffix)) = pyReplace gzSuffix [] (c :: [d])
      rw [pyReplace_cons_neg gzSuffix [] c (d :: gzSuffix) (bool_ne_true_of_eq_false hno)]
      rw [pyReplace_cons_neg gzSuffix [] c [d]
        (bool_ne_true_of_eq_false (gz_not_prefix_two c d))]
      congr 1
      show pyReplace gzSuffix [] ([d] ++ gzSuffix) = pyReplace gzSuffix [] [d]
      exact ih [d] (by simp at hp ⊢; omega)
    · -- p = c :: d :: e :: p3
      by_cases hpre : gzSuffix.isPrefixOf (c :: d :: e :: p3) = true
      · have hpre2 : gzSuffix.isPrefixOf (c :: d :: e :: (p3 ++ gzSuffix)) = true := by
          rw [gz_isPrefixOf_cons3] at hpre ⊢
          exact hpre
        show pyReplace gzSuffix [] (c :: (d :: e :: (p3 ++ gzSuffix)))
            = pyReplace gzSuffix [] (c :: (d :: e :: p3))
        rw [pyReplace_cons_pos gzSuffix [] c (d :: e :: (p3 ++ gzSuffix)) hpre2 (by decide)]
        rw [pyReplace_cons_pos gzSuffix [] c (d :: e :: p3) hpre (by decide)]
        rw [show (d :: e :: (p3 ++ gzSuffix)).drop (gzSuffix.length - 1) = p3 ++ gzSuffix from rfl]
        rw [show (d :: e :: p3).drop (gzSuffix.length - 1) = p3 from rfl]
        simp only [List.nil_append]
        exact ih p3 (by simp at hp ⊢; omega)
      · have hpreF : gzSuffix.isPrefixOf (c :: d :: e :: p3) = false :=
          bool_eq_false_of_ne_true hpre
        have hpre2 : gzSuffix.isPrefixOf (c :: d :: e :: (p3 ++ gzSuffix)) = false := by
          rw [gz_isPrefixOf_cons3] at hpreF ⊢
          exact hpreF
        show pyReplace gzSuffix [] (c :: (d :: e :: (p3 ++ gzSuffix)))
            = pyReplace gzSuffix [] (c :: (d :: e :: p3))
        rw [pyReplace_cons_neg gzSuffix [] c (d :: e :: (p3 ++ gzSuffix))
          (bool_ne_true_of_eq_false hpre2)]
        rw [pyReplace_cons_neg gzSuffix [] c (d :: e :: p3)
          (bool_ne_true_of_eq_false hpreF)]
        congr 1
        show pyReplace gzSuffix [] ((d :: e :: p3) ++ gzSuffix)
            = pyReplace gzSuffix [] (d :: e :: p3)
        exact ih (d :: e :: p3) (by simp at hp ⊢; omega)

theorem pyReplace_gz_append (p : PyStr) :
    pyReplace gzSuffix [] (p ++ gzSuffix) = pyReplace gzSuffix [] p :=
  pyReplace_gz_aux p.length p (le_refl _)

/-! ## Lemmas about dict lookup and assignment -/

theorem odSet_lookup_self {α : Type} :
    ∀ (d : List (PyStr × α)) (k : PyStr) (v : α), odLookup (odSet d k v) k = some v := by
  intro d
  induction d with
  | nil =>
    intro k v
    simp [odSet, odLookup]
  | cons kv rest ih =>
    obtain ⟨k0, v0⟩ := kv
    intro k v
    by_cases h : k0 = k
    · subst h
      simp [odSet, odLookup]
    · simp [odSet, odLookup, h, ih]

theorem odSet_lookup_ne {α : Type} :
    ∀ (d : List (PyStr × α)) (k k2 : PyStr) (v : α), k2 ≠ k →
      odLookup (odSet d k v) k2 = odLookup d k2 := by
  intro d
  induction d with
  | nil =>
    intro k k2 v hne
    show odLookup [(k, v)] k2 = none
    simp only [odLookup]
    rw [if_neg (fun h : k = k2 => hne h.symm)]
  | cons kv rest ih =>
    obtain ⟨k0, v0⟩ := kv
    intro k k2 v hne
    by_cases h : k0 = k
    · subst h
      show odLookup (if k0 = k0 then (k0, v) :: rest else (k0, v0) :: odSet rest k0 v) k2
          = odLookup ((k0, v0) :: rest) k2
      rw [if_pos rfl]
      simp only [odLookup]
      rw [if_neg (fun h2 : k0 = k2 => hne h2.symm), if_neg (fun h2 : k0 = k2 => hne h2.symm)]
    · show odLookup (if k0 = k then (k, v) :: rest else (k0, v0) :: odSet rest k v) k2
          = odLookup ((k0, v0) :: rest) k2
      rw [if_neg h]
      simp only [odLookup]
      by_cases h2 : k0 = k2
      · rw [if_pos h2, if_pos h2]
      · rw [if_neg h2, if_neg h2]
        exact ih k k2 v hne

theorem odSet_id {α : Type} :
    ∀ (d : List (PyStr × α)) (k : PyStr) (v : α), odLookup d k = some v →
      odSet d k v = d := by
  intro d
  induction d with
  | nil =>
    intro k v h
    exact absurd h (by simp [odLookup])
  | cons kv rest ih =>
    obtain ⟨k0, v0⟩ := kv
    intro k v h
    by_cases hk : k0 = k
    · subst hk
      have h2 : v0 = v := by
        have h3 : odLookup ((k0, v0) :: rest) k0 = some v0 := by simp [odLookup]
        rw [h3] at h
        exact Option.some.inj h
      subst h2
      show (if k0 = k0 then (k0, v0) :: rest else (k0, v0) :: odSet rest k0 v0)
          = (k0, v0) :: rest
      rw [if_pos rfl]
    · simp only [odLookup, if_neg hk] at h
      show (if k0 = k then (k, v) :: rest else (k0, v0) :: odSet rest k v)
          = (k0, v0) :: rest
      rw [if_neg hk, ih k v h]

theorem odLookup_eq_none_of_not_mem_keys {α : Type} :
    ∀ (d : List (PyStr × α)) (k : PyStr), k ∉ d.map Prod.fst → odLookup d k = none := by
  intro d
  induction d with
  | nil => intro k _; rfl
  | cons kv rest ih =>
    obtain ⟨k0, v0⟩ := kv
    intro k h
    simp only [List.map_cons, List.mem_cons] at h
    push_neg at h
    simp only [odLookup]
    rw [if_neg (fun hc : k0 = k => h.1 hc.symm)]
    exact ih k h.2

theorem odLookup_mem_nodup {α : Type} :
    ∀ (d : List (PyStr × α)) (k : PyStr) (v : α), (d.map Prod.fst).Nodup →
      (k, v) ∈ d → odLookup d k = some v := by
  intro d
  induction d with
  | nil =>
    intro k v _ hm
    simp at hm
  | cons kv rest ih =>
    obtain ⟨k0, v0⟩ := kv
    intro k v hnd hm
    rw [List.map_cons] at hnd
    have hnd2 := List.nodup_cons.mp hnd
    rcases List.mem_cons.mp hm with h1 | h2
    · rw [Prod.mk.injEq] at h1
      obtain ⟨rfl, rfl⟩ := h1
      simp [odLookup]
    · have hk : k0 ≠ k := by
        intro hc
        subst hc
        exact hnd2.1 (List.mem_map.mpr ⟨(k0, v), h2, rfl⟩)
      simp only [odLookup, if_neg hk]
      exact ih k v hnd2.2 h2

theorem odLookup_append_none {α : Type} :
    ∀ (d e : List (PyStr × α)) (k : PyStr), odLookup d k = none →
      odLookup (d ++ e) k = odLookup e k := by
  intro d
  induction d with
  | nil => intro e k _; rfl
  | cons kv rest ih =>
    obtain ⟨k0, v0⟩ := kv
    intro e k h
    by_cases hk : k0 = k
    · simp [odLookup, hk] at h
    · simp only [odLookup, if_neg hk] at h
      simp only [List.cons_append, odLookup, if_neg hk]
      exact ih e k h

theorem odLookup_append_some {α : Type} :
    ∀ (d e : List (PyStr × α)) (k : PyStr) (v : α), odLookup d k = some v →
      odLookup (d ++ e) k = some v := by
  intro d
  induction d with
  | nil =>
    intro e k v h
    simp [odLookup] at h
  | cons kv rest ih =>
    obtain ⟨k0, v0⟩ := kv
    intro e k v h
    by_cases hk : k0 = k
    · simp only [odLookup, if_pos hk] at h
      simp only [List.cons_append, odLookup, if_pos hk]
      exact h
    · simp only [odLookup, if_neg hk] at h
      simp only [List.cons_append, odLookup, if_neg hk]
      exact ih e k v h

/-! ## C8: classifier merge -/

/-- OR-union of two optional flag values, the per-path content of the
classifier merge. -/
def mergeOpt : Option Nat → Option Nat → Option Nat
  | some x, some y => some (x ||| y)
  | some x, none => some x
  | none, some y => some y
  | none, none => none

theorem mergeOpt_comm (x y : Option Nat) : mergeOpt x y = mergeOpt y x := by
  cases x <;> cases y <;> simp [mergeOpt, Nat.or_comm]

theorem fdMerge_lookup :
    ∀ (b : List (PyStr × Nat)), (b.map Prod.fst).Nodup →
      ∀ (a : List (PyStr × Nat)) (k : PyStr),
        odLookup (fdMerge a b) k = mergeOpt (odLookup a k) (odLookup b k) := by
  intro b
  induction b with
  | nil =>
    intro _ a k
    show odLookup a k = mergeOpt (odLookup a k) none
    cases odLookup a k <;> rfl
  | cons kv b2 ih =>
    obtain ⟨k0, v0⟩ := kv
    intro hnd a k
    rw [List.map_cons] at hnd
    have hnd2 := List.nodup_cons.mp hnd
    rw [show fdMerge a ((k0, v0) :: b2) = fdMerge (fdMergeStep a (k0, v0)) b2 from rfl]
    rw [ih hnd2.2 (fdMergeStep a (k0, v0)) k]
    by_cases hk : k0 = k
    · subst hk
      have hb2 : odLookup b2 k0 = none :=
        odLookup_eq_none_of_not_mem_keys b2 k0 hnd2.1
      rw [hb2]
      rw [show odLookup ((k0, v0) :: b2) k0 = some v0 from by simp [odLookup]]
      simp only [fdMergeStep]
      cases ha : odLookup a k0 with
      | some old =>
        show mergeOpt (odLookup (odSet a k0 (old ||| v0)) k0) none
            = mergeOpt (some old) (some v0)
        rw [odSet_lookup_self a k0 (old ||| v0)]
        rfl
      | none =>
        show mergeOpt (odLookup (a ++ [(k0, v0)]) k0) none = mergeOpt none (some v0)
        rw [odLookup_append_none a [(k0, v0)] k0 ha]
        simp [odLookup, mergeOpt]
    · rw [show odLookup ((k0, v0) :: b2) k = odLookup b2 k from by simp [odLookup, hk]]
      have hstep : odLookup (fdMergeStep a (k0, v0)) k = odLookup a k := by
        simp only [fdMergeStep]
        cases ha : odLookup a k0 with
        | some old =>
          show odLookup (odSet a k0 (old ||| v0)) k = odLookup a k
          exact odSet_lookup_ne a k0 k (old ||| v0) (fun hc => hk hc.symm)
        | none =>
          show odLookup (a ++ [(k0, v0)]) k = odLookup a k
          cases hak : odLookup a k with
          | some w => exact odLookup_append_some a [(k0, v0)] k w hak
          | none =>
            rw [odLookup_append_none a [(k0, v0)] k hak]
            simp [odLookup, hk]
      rw [hstep]

theorem fdMerge_subset :
    ∀ (l a : List (PyStr × Nat)), (a.map Prod.fst).Nodup →
      (∀ kv, kv ∈ l → kv ∈ a) → fdMerge a l = a := by
  intro l
  induction l with
  | nil => intro a _ _; rfl
  | cons kv l2 ih =>
    obtain ⟨k, v⟩ := kv
    intro a hnd hsub
    have hmem : (k, v) ∈ a := hsub _ (by simp)
    have hlook : odLookup a k = some v := odLookup_mem_nodup a k v hnd hmem
    have hstep : fdMergeStep a (k, v) = a := by
      simp only [fdMergeStep]
      rw [hlook]
      show odSet a k (v ||| v) = a
      rw [Nat.or_self]
      exact odSet_id a k v hlook
    rw [show fdMerge a ((k, v) :: l2) = fdMerge (fdMergeStep a (k, v)) l2 from rfl, hstep]
    exact ih a hnd (fun kv2 h2 => hsub kv2 (by simp [h2]))

/-- C8: `FileDict.update` ORs flag bitmasks per path, creating absent
entries; as an operation on flags maps it is commutative (pointwise, as a
map) and merging a map into itself changes nothing.  The no-duplicate-keys
hypotheses express that the association lists model Python dicts. -/
theorem C8_merge_or_union_comm_idem (a b : FileDict)
    (ha : (a.file_dict.map Prod.fst).Nodup) (hb : (b.file_dict.map Prod.fst).Nodup) :
    (∀ k, odLookup ((a.update b.file_dict).file_dict) k
        = mergeOpt (odLookup a.file_dict k) (odLookup b.file_dict k)) ∧
    (∀ k, odLookup ((a.update b.file_dict).file_dict) k
        = odLookup ((b.update a.file_dict).file_dict) k) ∧
    (a.update a.file_dict).file_dict = a.file_dict := by
  refine ⟨?_, ?_, ?_⟩
  · intro k
    exact fdMerge_lookup b.file_dict hb a.file_dict k
  · intro k
    rw [show (a.update b.file_dict).file_dict = fdMerge a.file_dict b.file_dict from rfl]
    rw [show (b.update a.file_dict).file_dict = fdMerge b.file_dict a.file_dict from rfl]
    rw [fdMerge_lookup b.file_dict hb, fdMerge_lookup a.file_dict ha, mergeOpt_comm]
  · exact fdMerge_subset a.file_dict a.file_dict ha (fun _ h => h)

/-- Two concrete classifiers overlapping on path `y`. -/
def fdA : FileDict := ⟨[], [("x".toList, 1), ("y".toList, 2)]⟩

/-- Second concrete classifier for the C8 witness. -/
def fdB : FileDict := ⟨[], [("y".toList, 4), ("z".toList, 8)]⟩

theorem C8_merge_or_union_comm_idem_witness :
    odLookup ((fdA.update fdB.file_dict).file_dict) "y".toList
      = mergeOpt (odLookup fdA.file_dict "y".toList) (odLookup fdB.file_dict "y".toList) ∧
    odLookup ((fdA.update fdB.file_dict).file_dict) "y".toList
      = odLookup ((fdB.update fdA.file_dict).file_dict) "y".toList ∧
    (fdA.update fdA.file_dict).file_dict = fdA.file_dict :=
  ⟨(C8_merge_or_union_comm_idem fdA fdB (by decide) (by decide)).1 "y".toList,
   (C8_merge_or_union_comm_idem fdA fdB (by decide) (by decide)).2.1 "y".toList,
   (C8_merge_or_union_comm_idem fdA fdA (by decide) (by decide)).2.2⟩

/-! ## Lemmas about `register_file` -/

theorem register_file_fst_table (fs : FileSystem) (a : FileArchive) (p : PyStr)
    (c : Int) (s f : Nat) :
    ((a.register_file fs p c s f).1).table
      = a.table ++ [(a.register_file fs p c s f).2] := rfl

theorem register_file_fst_base (fs : FileSystem) (a : FileArchive) (p : PyStr)
    (c : Int) (s f : Nat) :
    ((a.register_file fs p c s f).1).base_path = a.base_path := rfl

theorem register_file_fst_cache (fs : FileSystem) (a : FileArchive) (p : PyStr)
    (c : Int) (s f : Nat) :
    ((a.register_file fs p c s f).1).cache
      = odSet a.cache (a.get_localpath p) (a.register_file fs p c s f).2 := rfl

theorem register_file_snd_key (fs : FileSystem) (a : FileArchive) (p : PyStr)
    (c : Int) (s f : Nat) :
    ((a.register_file fs p c s f).2).key = (a.table.length : Int) + 1 := rfl

theorem register_file_table_length (fs : FileSystem) (a : FileArchive) (p : PyStr)
    (c : Int) (s f : Nat) :
    ((a.register_file fs p c s f).1).table.length = a.table.length + 1 := by
  rw [register_file_fst_table, List.length_append]
  rfl

theorem get_handle_of_register (fs : FileSystem) (a : FileArchive) (p : PyStr)
    (c : Int) (s f : Nat) :
    ((a.register_file fs p c s f).1).get_handle p = .ok (a.register_file fs p c s f).2 := by
  show (match odLookup ((a.register_file fs p c s f).1).cache
      (((a.register_file fs p c s f).1).get_localpath p) with
    | some fh => Except.ok fh
    | none => Except.error PyErr.keyError) = _
  rw [show ((a.register_file fs p c s f).1).get_localpath p = a.get_localpath p from rfl]
  rw [register_file_fst_cache]
  rw [odSet_lookup_self]

/-- C9: registering with requested status `exists` is not an error.  When
the file is absent the returned record has status `missing` and timestamp
`0` (warning only, record still appended); when the file exists the record
has status `exists` and the file modification time as timestamp.  (The
emitted warning is a `print`, not modelled; `hp` excludes the empty path,
on which the Python code would raise `IndexError` in `_get_fullpath`.) -/
theorem C9_register_exists_downgrade (fs : FileSystem) (a : FileArchive) (p : PyStr)
    (creator : Int) (flags : Nat) (hp : p ≠ []) :
    (fs (a.get_fullpath p) = none →
      ((a.register_file fs p creator FileStatus.«exists» flags).2.status
          = FileStatus.missing ∧
       (a.register_file fs p creator FileStatus.«exists» flags).2.timestamp = 0 ∧
       (a.register_file fs p creator FileStatus.«exists» flags).1.table
          = a.table ++ [(a.register_file fs p creator FileStatus.«exists» flags).2])) ∧
    (∀ t : Int, fs (a.get_fullpath p) = some t →
      ((a.register_file fs p creator FileStatus.«exists» flags).2.status
          = FileStatus.«exists» ∧
       (a.register_file fs p creator FileStatus.«exists» flags).2.timestamp = t)) := by
  constructor
  · intro h
    refine ⟨?_, ?_, register_file_fst_table fs a p creator FileStatus.«exists» flags⟩
    · show (registerStatusTimestamp fs a p FileStatus.«exists»).1 = FileStatus.missing
      unfold registerStatusTimestamp
      rw [if_pos rfl, h]
    · show (registerStatusTimestamp fs a p FileStatus.«exists»).2 = 0
      unfold registerStatusTimestamp
      rw [if_pos rfl, h]
  · intro t h
    constructor
    · show (registerStatusTimestamp fs a p FileStatus.«exists»).1 = FileStatus.«exists»
      unfold registerStatusTimestamp
      rw [if_pos rfl, h]
    · show (registerStatusTimestamp fs a p FileStatus.«exists»).2 = t
      unfold registerStatusTimestamp
      rw [if_pos rfl, h]

theorem C9_register_exists_downgrade_witness :
    ((arch0.register_file fsEmpty "b.fits".toList 7 FileStatus.«exists»
        FileFlags.no_flags).2.status = FileStatus.missing ∧
     (arch0.register_file fsEmpty "b.fits".toList 7 FileStatus.«exists»
        FileFlags.no_flags).2.timestamp = 0 ∧
     (arch0.register_file fsEmpty "b.fits".toList 7 FileStatus.«exists»
        FileFlags.no_flags).1.table
        = arch0.table ++ [(arch0.register_file fsEmpty "b.fits".toList 7 FileStatus.«exists»
            FileFlags.no_flags).2]) ∧
    ((arch0.register_file fsDataA "a.fits".toList 7 FileStatus.«exists»
        FileFlags.no_flags).2.status = FileStatus.«exists» ∧
     (arch0.register_file fsDataA "a.fits".toList 7 FileStatus.«exists»
        FileFlags.no_flags).2.timestamp = 111) :=
  ⟨(C9_register_exists_downgrade fsEmpty arch0 "b.fits".toList 7 FileFlags.no_flags
      (by decide)).1 (by decide),
   (C9_register_exists_downgrade fsDataA arch0 "a.fits".toList 7 FileFlags.no_flags
      (by decide)).2 111 (by decide)⟩

/-! ## C4 and C10: `get_file_ids` -/

theorem getFileIdsLoop_single_none (fs : FileSystem) (a : FileArchive) (creator : Option Int)
    (status : Nat) (p : PyStr) (acc : List Int) :
    getFileIdsLoop fs [p] a creator status none acc
      = match a.get_handle p with
        | .ok fh => .ok (a, acc ++ [fh.key])
        | .error _ =>
            .ok ((a.register_file fs p (creator.getD (-1)) status FileFlags.no_flags).1,
              acc ++ [(a.register_file fs p (creator.getD (-1)) status
                FileFlags.no_flags).2.key]) := by
  cases hg : a.get_handle p with
  | ok fh => simp only [getFileIdsLoop, hg]
  | error e => simp only [getFileIdsLoop, hg]

theorem getFileIdsLoop_single_some (fs : FileSystem) (a : FileArchive) (creator : Option Int)
    (status : Nat) (fd0 : FileDict) (p : PyStr) (acc : List Int) :
    getFileIdsLoop fs [p] a creator status (some fd0) acc
      = match odLookup fd0.file_dict p with
        | none => .error (.keyError, a)
        | some flags =>
          match a.get_handle p with
          | .ok fh => .ok (a, acc ++ [fh.key])
          | .error _ =>
              .ok ((a.register_file fs p (creator.getD (-1)) status flags).1,
                acc ++ [(a.register_file fs p (creator.getD (-1)) status flags).2.key]) := by
  cases hl : odLookup fd0.file_dict p with
  | none => simp only [getFileIdsLoop, hl]
  | some flags =>
    cases hg : a.get_handle p with
    | ok fh => simp only [getFileIdsLoop, hl, hg]
    | error e => simp only [getFileIdsLoop, hl, hg]

/-- C4: `get_file_ids` is idempotent per path: when a call on the single
list `[p]` succeeds, repeating it with the same creator and status (and the
same classifier) returns the same state and the same single-element key
list, and the record count grows by at most one across the two calls.
(`hp` excludes the empty path, on which the Python code can raise
`IndexError` while registering with status `exists`.) -/
theorem C4_get_file_ids_idempotent (fs : FileSystem) (a : FileArchive) (p : PyStr)
    (creator : Option Int) (status : Nat) (fd : Option FileDict)
    (hp : p ≠ []) (a1 : FileArchive) (ks : List Int)
    (h : a.get_file_ids fs [p] creator status fd = .ok (a1, ks)) :
    a1.get_file_ids fs [p] creator status fd = .ok (a1, ks) ∧
    ks.length = 1 ∧ a1.table.length ≤ a.table.length + 1 := by
  unfold FileArchive.get_file_ids at h ⊢
  cases fd with
  | none =>
    rw [getFileIdsLoop_single_none] at h
    cases hg : a.get_handle p with
    | ok fh =>
      rw [hg] at h
      simp only [Except.ok.injEq, Prod.mk.injEq, List.nil_append] at h
      obtain ⟨rfl, rfl⟩ := h
      refine ⟨?_, rfl, Nat.le_succ _⟩
      rw [getFileIdsLoop_single_none, hg]
      rfl
    | error e =>
      rw [hg] at h
      simp only [Except.ok.injEq, Prod.mk.injEq, List.nil_append] at h
      obtain ⟨rfl, rfl⟩ := h
      refine ⟨?_, rfl, ?_⟩
      · rw [getFileIdsLoop_single_none, get_handle_of_register]
        rfl
      · rw [register_file_table_length]
  | some fd0 =>
    rw [getFileIdsLoop_single_some] at h
    cases hl : odLookup fd0.file_dict p with
    | none =>
      rw [hl] at h
      exact Except.noConfusion h
    | some flags =>
      rw [hl] at h
      cases hg : a.get_handle p with
      | ok fh =>
        rw [hg] at h
        simp only [Except.ok.injEq, Prod.mk.injEq, List.nil_append] at h
        obtain ⟨rfl, rfl⟩ := h
        refine ⟨?_, rfl, Nat.le_succ _⟩
        rw [getFileIdsLoop_single_some, hl, hg]
        rfl
      | error e =>
        rw [hg] at h
        simp only [Except.ok.injEq, Prod.mk.injEq, List.nil_append] at h
        obtain ⟨rfl, rfl⟩ := h
        refine ⟨?_, rfl, ?_⟩
        · rw [getFileIdsLoop_single_some, hl, get_handle_of_register]
          rfl
        · rw [register_file_table_length]

/-- The archive produced by the first `get_file_ids` call of the C4
scenario (fresh archive, path `c.fits`, creator 3, status `expected`). -/
def arch4 : FileArchive :=
  (arch0.register_file fsEmpty "c.fits".toList 3 FileStatus.expected FileFlags.no_flags).1

theorem C4_get_file_ids_idempotent_witness :
    arch4.get_file_ids fsEmpty ["c.fits".toList] (some 3) FileStatus.expected none
      = .ok (arch4, [1]) ∧
    ([(1 : Int)]).length = 1 ∧ arch4.table.length ≤ arch0.table.length + 1 :=
  C4_get_file_ids_idempotent fsEmpty arch0 "c.fits".toList (some 3) FileStatus.expected none
    (by decide) arch4 [1] (by decide)

theorem getFileIdsLoop_keyerror (fs : FileSystem) (p : PyStr) (rest : List PyStr)
    (fd : FileDict) (h : odLookup fd.file_dict p = none) :
    ∀ (pre : List PyStr) (a : FileArchive) (creator : Option Int) (status : Nat)
      (acc : List Int), (∀ q, q ∈ pre → (odLookup fd.file_dict q).isSome = true) →
      ∃ a2, getFileIdsLoop fs (pre ++ p :: rest) a creator status (some fd) acc
        = .error (.keyError, a2) := by
  intro pre
  induction pre with
  | nil =>
    intro a creator status acc _
    refine ⟨a, ?_⟩
    simp only [List.nil_append, getFileIdsLoop, h]
  | cons q pre2 ih =>
    intro a creator status acc hq
    have hqs : (odLookup fd.file_dict q).isSome = true := hq q (by simp)
    obtain ⟨v, hv⟩ := Option.isSome_iff_exists.mp hqs
    have hq2 : ∀ r, r ∈ pre2 → (odLookup fd.file_dict r).isSome = true :=
      fun r hr => hq r (by simp [hr])
    show ∃ a2, getFileIdsLoop fs (q :: (pre2 ++ p :: rest)) a creator status (some fd) acc
        = .error (.keyError, a2)
    cases hg : a.get_handle q with
    | ok fh =>
      refine (ih a creator status (acc ++ [fh.key]) hq2).imp ?_
      intro a2 h2
      simp only [getFileIdsLoop, hv, hg]
      exact h2
    | error e =>
      refine (ih (a.register_file fs q (creator.getD (-1)) status v).1
        (some (creator.getD (-1))) status
        (acc ++ [(a.register_file fs q (creator.getD (-1)) status v).2.key]) hq2).imp ?_
      intro a2 h2
      simp only [getFileIdsLoop, hv, hg]
      exact h2

/-- C10: when a classifier is supplied, `get_file_ids` looks the path up in
the classifier flags map before resolving it; a path absent from that map
makes the operation fail with an uncaught `KeyError` (no fallback to
`no_flags`), before that path is resolved or registered.  With the absent
path first in the list the returned state is exactly the initial archive;
for an absent path at any later position (all earlier paths being present
in the map) the operation also fails with `KeyError`. -/
theorem C10_classifier_missing_key (fs : FileSystem) (a : FileArchive) (p : PyStr)
    (rest : List PyStr) (creator : Option Int) (status : Nat) (fd : FileDict)
    (h : odLookup fd.file_dict p = none) :
    a.get_file_ids fs (p :: rest) creator status (some fd) = .error (.keyError, a) ∧
    ∀ pre : List PyStr, (∀ q, q ∈ pre → (odLookup fd.file_dict q).isSome = true) →
      ∃ a2, a.get_file_ids fs (pre ++ p :: rest) creator status (some fd)
        = .error (.keyError, a2) := by
  constructor
  · show getFileIdsLoop fs (p :: rest) a creator status (some fd) [] = _
    simp only [getFileIdsLoop, h]
  · intro pre hpre
    exact getFileIdsLoop_keyerror fs p rest fd h pre a creator status [] hpre

/-- Empty classifier used by the C10 witness. -/
def fdEmpty : FileDict := ⟨[], []⟩

theorem C10_classifier_missing_key_witness :
    arch0.get_file_ids fsEmpty ("nope".toList :: []) none FileStatus.no_file (some fdEmpty)
      = .error (.keyError, arch0) ∧
    ∃ a2, arch0.get_file_ids fsEmpty ([] ++ "nope".toList :: []) none FileStatus.no_file
        (some fdEmpty) = .error (.keyError, a2) :=
  ⟨(C10_classifier_missing_key fsEmpty arch0 "nope".toList [] none FileStatus.no_file
      fdEmpty (by decide)).1,
   (C10_classifier_missing_key fsEmpty arch0 "nope".toList [] none FileStatus.no_file
      fdEmpty (by decide)).2 []
      (fun q hq => absurd hq (List.not_mem_nil q))⟩

/-! ## C5: path round trip -/

/-- C5 (amended): with a base path that ends in `/`, the round trip holds:
for `p = basePath ++ r` with `r` nonempty, not starting with `/` and not
containing the base path as a substring,
`_get_fullpath(_get_localpath(p)) = p`; and a path that is already
absolute (starts with `/`) is returned unchanged by `_get_fullpath`. -/
theorem C5_roundtrip_amended (a : FileArchive) (r : PyStr)
    (hb : a.base_path ≠ []) (hslash : a.base_path.getLast? = some '/')
    (hr0 : r ≠ []) (hr1 : r.head? ≠ some '/')
    (hocc : containsOcc a.base_path r = false) :
    a.get_fullpath (a.get_localpath (a.base_path ++ r)) = a.base_path ++ r ∧
    ∀ q : PyStr, q.head? = some '/' → a.get_fullpath q = q := by
  have hloc : a.get_localpath (a.base_path ++ r) = r := by
    show pyReplace a.base_path [] (a.base_path ++ r) = r
    rw [pyReplace_prefix_step a.base_path [] r hb]
    rw [pyReplace_of_not_containsOcc a.base_path [] r hocc]
    rfl
  constructor
  · rw [hloc]
    cases r with
    | nil => exact absurd rfl hr0
    | cons r0 rt =>
      have hr0ne : ¬ r0 = '/' := by
        intro hc
        exact hr1 (by rw [hc]; rfl)
      show (if r0 = '/' then r0 :: rt else osPathJoin a.base_path (r0 :: rt))
          = a.base_path ++ (r0 :: rt)
      rw [if_neg hr0ne]
      have hh : ¬ (r0 :: rt).head? = some '/' := by
        simp only [List.head?_cons]
        intro hc
        exact hr0ne (Option.some.inj hc)
      show (if (r0 :: rt).head? = some '/' then r0 :: rt
        else if a.base_path = [] ∨ a.base_path.getLast? = some '/'
          then a.base_path ++ (r0 :: rt) else a.base_path ++ '/' :: (r0 :: rt))
          = a.base_path ++ (r0 :: rt)
      rw [if_neg hh, if_pos (Or.inr hslash)]
  · intro q hq
    cases q with
    | nil => exact absurd hq (by simp)
    | cons c t =>
      have hc : c = '/' := by simpa using hq
      show (if c = '/' then c :: t else osPathJoin a.base_path (c :: t)) = c :: t
      rw [if_pos hc]

theorem C5_roundtrip_amended_witness :
    arch0.get_fullpath (arch0.get_localpath (arch0.base_path ++ "run1/evt.fits".toList))
      = arch0.base_path ++ "run1/evt.fits".toList ∧
    arch0.get_fullpath "/abs.fits".toList = "/abs.fits".toList :=
  ⟨(C5_roundtrip_amended arch0 "run1/evt.fits".toList (by decide) (by decide) (by decide)
      (by decide) (by decide)).1,
   (C5_roundtrip_amended arch0 "run1/evt.fits".toList (by decide) (by decide) (by decide)
      (by decide) (by decide)).2 "/abs.fits".toList rfl⟩

/-! ## C7: compression-suffix stripping -/

theorem latch_singleton (k : PyStr) (v : Nat) (q : PyStr)
    (hk : ¬ k.take 4 = "args".toList) :
    (FileDict.latch_file_info ⟨[(k, v)], []⟩ [(k, some q)]).file_dict
      = [(pyReplace gzSuffix [] q, v)] := by
  have hargs : odLookup [(k, some q)] k = some (some q) := by
    simp [odLookup]
  show (match odLookup [(k, some q)] k with
    | none => ([] : List (PyStr × Nat))
    | some none => ([] : List (PyStr × Nat))
    | some (some fp) => latchOne [] k v fp) = [(pyReplace gzSuffix [] q, v)]
  rw [hargs]
  show latchOne [] k v q = [(pyReplace gzSuffix [] q, v)]
  unfold latchOne
  rw [if_neg hk]
  rfl

/-- Schema of the C7 example scenario. -/
def fd7s : FileDict :=
  ⟨[("infile".toList, FileFlags.input_mask), ("outfile".toList, FileFlags.output_mask)], []⟩

/-- C7 (amended): `latch_file_info` strips every occurrence of `.gz`
anywhere in the path (not only a trailing suffix).  Consequently a path
ending in `.gz` and the same path without that suffix map to the same
flags-map entry; a path containing no `.gz` at all is recorded unchanged;
and the example schema and arguments produce exactly
`{"a.fits": input, "b.fits": output}`. -/
theorem C7_gz_strip_amended :
    (∀ (k : PyStr) (v : Nat) (p : PyStr), ¬ k.take 4 = "args".toList →
      (FileDict.latch_file_info ⟨[(k, v)], []⟩ [(k, some (p ++ gzSuffix))]).file_dict
        = (FileDict.latch_file_info ⟨[(k, v)], []⟩ [(k, some p)]).file_dict) ∧
    (∀ (k : PyStr) (v : Nat) (p : PyStr), ¬ k.take 4 = "args".toList →
      containsOcc gzSuffix p = false →
      (FileDict.latch_file_info ⟨[(k, v)], []⟩ [(k, some p)]).file_dict = [(p, v)]) ∧
    (fd7s.latch_file_info [("infile".toList, some "a.fits".toList),
        ("outfile".toList, some "b.fits.gz".toList)]).file_dict
      = [("a.fits".toList, FileFlags.input_mask),
         ("b.fits".toList, FileFlags.output_mask)] := by
  refine ⟨?_, ?_, ?_⟩
  · intro k v p hk
    rw [latch_singleton k v (p ++ gzSuffix) hk, latch_singleton k v p hk,
      pyReplace_gz_append]
  · intro k v p hk hocc
    rw [latch_singleton k v p hk, pyReplace_of_not_containsOcc gzSuffix [] p hocc]
  · decide

theorem C7_gz_strip_amended_witness :
    (FileDict.latch_file_info ⟨[("infile".toList, 1)], []⟩
        [("infile".toList, some ("b.fits".toList ++ gzSuffix))]).file_dict
      = (FileDict.latch_file_info ⟨[("infile".toList, 1)], []⟩
          [("infile".toList, some "b.fits".toList)]).file_dict ∧
    (FileDict.latch_file_info ⟨[("infile".toList, 1)], []⟩
        [("infile".toList, some "c.fits".toList)]).file_dict = [("c.fits".toList, 1)] :=
  ⟨C7_gz_strip_amended.1 "infile".toList 1 "b.fits".toList (by decide),
   C7_gz_strip_amended.2.1 "infile".toList 1 "c.fits".toList (by decide) (by decide)⟩

/-! ## C6: key assignment -/

/-- The key column of a table with `n` rows whose keys are `1, 2, ..., n`. -/
def keysUpTo (n : Nat) : List Int := (List.range n).map (fun i : Nat => ((i : Int) + 1))

theorem keysUpTo_succ (n : Nat) : keysUpTo (n + 1) = keysUpTo n ++ [(n : Int) + 1] := by
  unfold keysUpTo
  rw [List.range_succ, List.map_append]
  rfl

theorem keysUpTo_pairwise (n : Nat) : (keysUpTo n).Pairwise (· < ·) := by
  unfold keysUpTo
  refine List.Pairwise.map _ ?_ (List.pairwise_lt_range n)
  intro i j hij
  omega

/-- State carried by the result of an `update_file` call, also on error. -/
def resStateU : Except (PyErr × FileArchive) (FileArchive × FileHandle) → FileArchive
  | .ok (a2, _) => a2
  | .error (_, a2) => a2

theorem update_file_resTable (fs : FileSystem) (a : FileArchive) (p : PyStr)
    (c : Int) (s : Nat) :
    (resStateU (a.update_file fs p c s)).table = a.table := by
  unfold FileArchive.update_file
  cases hl : odLookup a.cache (a.get_localpath p) with
  | none => rfl
  | some fh0 =>
    show (resStateU (if s = FileStatus.«exists» ∨ s = FileStatus.superseded then
        Except.error (PyErr.attributeError, a)
      else
        match pyIndex a.table (fh0.key - 1) with
        | none => Except.error (PyErr.indexError,
            updatedArchive a (a.get_localpath p) (updatedHandle fh0 c s))
        | some _ => Except.ok
            (updatedArchive a (a.get_localpath p) (updatedHandle fh0 c s),
             updatedHandle fh0 c s))).table = a.table
    by_cases hs : s = FileStatus.«exists» ∨ s = FileStatus.superseded
    · rw [if_pos hs]
      rfl
    · rw [if_neg hs]
      cases hidx : pyIndex a.table (fh0.key - 1) with
      | none => rfl
      | some x => rfl

theorem update_file_table_any (fs : FileSystem) (a : FileArchive) (p : PyStr)
    (c : Int) (s : Nat) :
    (∀ a2 fh, a.update_file fs p c s = .ok (a2, fh) → a2.table = a.table) ∧
    (∀ e a2, a.update_file fs p c s = .error (e, a2) → a2.table = a.table) := by
  constructor
  · intro a2 fh h
    have h2 := update_file_resTable fs a p c s
    rw [h] at h2
    exact h2
  · intro e a2 h
    have h2 := update_file_resTable fs a p c s
    rw [h] at h2
    exact h2

theorem keysInv_register (fs : FileSystem) (a : FileArchive) (p : PyStr) (c : Int)
    (s f : Nat) (h : a.table.map FileHandle.key = keysUpTo a.table.length) :
    ((a.register_file fs p c s f).1).table.map FileHandle.key
      = keysUpTo ((a.register_file fs p c s f).1).table.length := by
  rw [register_file_fst_table, List.map_append, h]
  rw [show (a.table ++ [(a.register_file fs p c s f).2]).length = a.table.length + 1 from by
    rw [List.length_append]; rfl]
  rw [keysUpTo_succ]
  rfl

/-- State carried by the result of a `get_file_ids` call, also on error. -/
def resState : Except (PyErr × FileArchive) (FileArchive × List Int) → FileArchive
  | .ok (a2, _) => a2
  | .error (_, a2) => a2

theorem keysInv_loop (fs : FileSystem) :
    ∀ (ps : List PyStr) (a : FileArchive) (creator : Option Int) (status : Nat)
      (fd : Option FileDict) (acc : List Int),
      a.table.map FileHandle.key = keysUpTo a.table.length →
      (resState (getFileIdsLoop fs ps a creator status fd acc)).table.map FileHandle.key
        = keysUpTo (resState (getFileIdsLoop fs ps a creator status fd acc)).table.length := by
  intro ps
  induction ps with
  | nil =>
    intro a creator status fd acc hinv
    exact hinv
  | cons p ps2 ih =>
    intro a creator status fd acc hinv
    cases fd with
    | none =>
      cases hg : a.get_handle p with
      | ok fh =>
        rw [show getFileIdsLoop fs (p :: ps2) a creator status none acc
            = getFileIdsLoop fs ps2 a creator status none (acc ++ [fh.key]) from by
              simp only [getFileIdsLoop, hg]]
        exact ih a creator status none (acc ++ [fh.key]) hinv
      | error e =>
        rw [show getFileIdsLoop fs (p :: ps2) a creator status none acc
            = getFileIdsLoop fs ps2
                (a.register_file fs p (creator.getD (-1)) status FileFlags.no_flags).1
                (some (creator.getD (-1))) status none
                (acc ++ [(a.register_file fs p (creator.getD (-1)) status
                  FileFlags.no_flags).2.key]) from by
              simp only [getFileIdsLoop, hg]]
        exact ih _ _ _ _ _
          (keysInv_register fs a p (creator.getD (-1)) status FileFlags.no_flags hinv)
    | some fd0 =>
      cases hl : odLookup fd0.file_dict p with
      | none =>
        rw [show getFileIdsLoop fs (p :: ps2) a creator status (some fd0) acc
            = .error (.keyError, a) from by simp only [getFileIdsLoop, hl]]
        exact hinv
      | some flags =>
        cases hg : a.get_handle p with
        | ok fh =>
          rw [show getFileIdsLoop fs (p :: ps2) a creator status (some fd0) acc
              = getFileIdsLoop fs ps2 a creator status (some fd0) (acc ++ [fh.key]) from by
                simp only [getFileIdsLoop, hl, hg]]
          exact ih a creator status (some fd0) (acc ++ [fh.key]) hinv
        | error e =>
          rw [show getFileIdsLoop fs (p :: ps2) a creator status (some fd0) acc
              = getFileIdsLoop fs ps2
                  (a.register_file fs p (creator.getD (-1)) status flags).1
                  (some (creator.getD (-1))) status (some fd0)
                  (acc ++ [(a.register_file fs p (creator.getD (-1)) status
                    flags).2.key]) from by
                simp only [getFileIdsLoop, hl, hg]]
          exact ih _ _ _ _ _
            (keysInv_register fs a p (creator.getD (-1)) status flags hinv)

theorem keysInv_reachable (a : FileArchive) (h : Reachable a) :
    a.table.map FileHandle.key = keysUpTo a.table.length := by
  induction h with
  | base bp => rfl
  | register fs p creator status flags h ih =>
    exact keysInv_register fs _ p creator status flags ih
  | update_ok fs p creator status a2 fh h hu ih =>
    rw [(update_file_table_any fs _ p creator status).1 a2 fh hu]
    exact ih
  | update_err fs p creator status e a2 h hu ih =>
    rw [(update_file_table_any fs _ p creator status).2 e a2 hu]
    exact ih
  | ids_ok fs ps creator status fd a2 ks h hu ih =>
    have h2 := keysInv_loop fs ps _ creator status fd [] ih
    rw [show FileArchive.get_file_ids fs _ ps creator status fd
        = getFileIdsLoop fs ps _ creator status fd [] from rfl] at hu
    rw [hu] at h2
    exact h2
  | ids_err fs ps creator status fd e a2 h hu ih =>
    have h2 := keysInv_loop fs ps _ creator status fd [] ih
    rw [show FileArchive.get_file_ids fs _ ps creator status fd
        = getFileIdsLoop fs ps _ creator status fd [] from rfl] at hu
    rw [hu] at h2
    exact h2

/-- C6: on every reachable archive state the table keys are exactly
`1, 2, ..., n` in order: each registration (of a nonempty path; the empty
path can make Python raise `IndexError` before a key is assigned) assigns
`key = record count + 1`, keys are strictly increasing along the table and
are never reused, also across updates and logical removals (updates never
change the table, registrations only append). -/
theorem C6_keys_strictly_increasing (a : FileArchive) (h : Reachable a) :
    a.table.map FileHandle.key = keysUpTo a.table.length ∧
    (∀ (fs : FileSystem) (p : PyStr) (creator : Int) (status flags : Nat), p ≠ [] →
      ((a.register_file fs p creator status flags).2).key = (a.table.length : Int) + 1) ∧
    (a.table.map FileHandle.key).Pairwise (· < ·) ∧
    (a.table.map FileHandle.key).Nodup := by
  have h1 := keysInv_reachable a h
  refine ⟨h1, fun fs p creator status flags _ => rfl, ?_, ?_⟩
  · rw [h1]
    exact keysUpTo_pairwise a.table.length
  · rw [h1]
    exact (keysUpTo_pairwise a.table.length).imp (fun hlt => ne_of_lt hlt)

theorem C6_keys_strictly_increasing_witness :
    arch1.table.map FileHandle.key = keysUpTo arch1.table.length ∧
    ((arch1.register_file fsEmpty "b.fits".toList 1 FileStatus.no_file
        FileFlags.no_flags).2).key = (arch1.table.length : Int) + 1 ∧
    (arch1.table.map FileHandle.key).Pairwise (· < ·) ∧
    (arch1.table.map FileHandle.key).Nodup :=
  have hr : Reachable arch1 :=
    Reachable.register fsEmpty "a.fits".toList 7 FileStatus.no_file FileFlags.no_flags
      (Reachable.base "/data/".toList)
  ⟨(C6_keys_strictly_increasing arch1 hr).1,
   (C6_keys_strictly_increasing arch1 hr).2.1 fsEmpty "b.fits".toList 1 FileStatus.no_file
     FileFlags.no_flags (by decide),
   (C6_keys_strictly_increasing arch1 hr).2.2.1,
   (C6_keys_strictly_increasing arch1 hr).2.2.2⟩
